import Mathlib

/-!
Shallow embedding of the architecture-graph delta protocol and merge engine
(graph-utils, prompt/summarizer, and the chat-route delta parser), together
with proofs of the specified properties.

Coordinates are modelled as rationals (`Rat`): every numeric literal the
code manipulates (grid spacing 250/150, default origins, JSON number
literals) is represented exactly.
-/

namespace ArchGraph

/-- Node kinds supported by the architecture graph (`NodeKindSchema`). -/
inductive NodeKind where
  | service
  | «class»
  | «module»
  | api
  | queue
  | db
deriving DecidableEq, Repr

/-- Edge kinds representing relationships between nodes (`EdgeKindSchema`). -/
inductive EdgeKind where
  | calls
  | depends_on
  | publishes
  | consumes
  | queries
deriving DecidableEq, Repr

/-- `PositionSchema`: canvas coordinates. -/
structure Position where
  x : Rat
  y : Rat
deriving DecidableEq, Repr

/-- `GraphNodeDataSchema`: all fields optional. -/
structure NodeData where
  summary : Option String
  methods : Option (List String)
  fields : Option (List String)
  filePath : Option String
deriving DecidableEq, Repr

/-- `GraphNodeSchema`. -/
structure GraphNode where
  id : String
  kind : NodeKind
  label : String
  position : Position
  data : NodeData
deriving DecidableEq, Repr

/-- `GraphEdgeDataSchema` (inner object). -/
structure EdgeData where
  description : Option String
deriving DecidableEq, Repr

/-- `GraphEdgeSchema`; the `data` object itself is optional. -/
structure GraphEdge where
  id : String
  source : String
  target : String
  kind : EdgeKind
  data : Option EdgeData
deriving DecidableEq, Repr

/-- `GraphMetaSchema`. -/
structure GraphMeta where
  projectId : String
  updatedAt : String
deriving DecidableEq, Repr

/-- `GraphStateSchema`. -/
structure GraphState where
  nodes : List GraphNode
  edges : List GraphEdge
  meta : GraphMeta
deriving DecidableEq, Repr

/-- `NodeUpdateSchema`: partial update addressed by id. -/
structure NodeUpdate where
  id : String
  label : Option String
  kind : Option NodeKind
  data : Option NodeData
deriving DecidableEq, Repr

/-- `GraphDeltaSchema`: all operation lists optional. -/
structure GraphDelta where
  addNodes : Option (List GraphNode)
  updateNodes : Option (List NodeUpdate)
  removeNodeIds : Option (List String)
  addEdges : Option (List GraphEdge)
  removeEdgeIds : Option (List String)
deriving DecidableEq, Repr

/-- The delta with every operation field absent. -/
def emptyDelta : GraphDelta :=
  { addNodes := none, updateNodes := none, removeNodeIds := none,
    addEdges := none, removeEdgeIds := none }

/-! ### Merge engine (`mergeGraphDelta`), step by step

Each numbered step of the source function is embedded as its own
definition so that properties can be stated per step; `mergeGraphDelta`
itself mirrors the source's guards (`if (delta.x && delta.x.length > 0)`).
-/

/-- Step 1a: `nodes.filter(n => !removeSet.has(n.id))`. -/
def removeNodes (ids : List String) (ns : List GraphNode) : List GraphNode :=
  ns.filter fun n => !(ids.contains n.id)

/-- Step 1b: `edges.filter(e => !removeSet.has(e.source) && !removeSet.has(e.target))`. -/
def removeEdgesTouching (ids : List String) (es : List GraphEdge) : List GraphEdge :=
  es.filter fun e => !(ids.contains e.source) && !(ids.contains e.target)

/-- Step 2: `edges.filter(e => !removeSet.has(e.id))`. -/
def removeEdges (ids : List String) (es : List GraphEdge) : List GraphEdge :=
  es.filter fun e => !(ids.contains e.id)

/-- Step 3: the `for (const newNode of delta.addNodes)` loop; `existingIds`
is the growing id set, initialised by the caller to the working nodes' ids. -/
def addNodesGo (acc : List GraphNode) (existingIds : List String) :
    List GraphNode → List GraphNode
  | [] => acc
  | a :: rest =>
    if existingIds.contains a.id then addNodesGo acc existingIds rest
    else addNodesGo (acc ++ [a]) (existingIds ++ [a.id]) rest

/-- Shallow merge `{...node.data, ...update.data}` (supplied keys overwrite,
omitted keys keep the prior value; arrays are replaced whole). -/
def mergeNodeData (old : NodeData) : Option NodeData → NodeData
  | none => old
  | some u =>
    { summary := match u.summary with | some v => some v | none => old.summary,
      methods := match u.methods with | some v => some v | none => old.methods,
      fields := match u.fields with | some v => some v | none => old.fields,
      filePath := match u.filePath with | some v => some v | none => old.filePath }

/-- The object built for an updated node:
`{...node, label: update.label ?? node.label, kind: update.kind ?? node.kind, data: {...}}`. -/
def applyUpdate (u : NodeUpdate) (n : GraphNode) : GraphNode :=
  { n with
    label := u.label.getD n.label,
    kind := u.kind.getD n.kind,
    data := mergeNodeData n.data u.data }

/-- `new Map(delta.updateNodes.map(u => [u.id, u])).get(id)`: the JS `Map`
constructor lets later entries overwrite earlier ones, so lookup returns the
last entry with the given id. -/
def findUpdate (us : List NodeUpdate) (id : String) : Option NodeUpdate :=
  us.reverse.find? fun u => u.id == id

/-- Step 4 body applied to one node. -/
def updateOne (us : List NodeUpdate) (n : GraphNode) : GraphNode :=
  match findUpdate us n.id with
  | none => n
  | some u => applyUpdate u n

/-- Step 4: `nodes.map(node => ...)`. -/
def updateNodesList (us : List NodeUpdate) (ns : List GraphNode) : List GraphNode :=
  ns.map (updateOne us)

/-- Step 5: the `for (const newEdge of delta.addEdges)` loop; `existingEdgeIds`
is the growing edge-id set, initialised to the working edges' ids. Edges with
a missing endpoint are skipped (the source only logs a warning). -/
def addEdgesGo (nodeIds : List String) (acc : List GraphEdge)
    (existingEdgeIds : List String) : List GraphEdge → List GraphEdge
  | [] => acc
  | e :: rest =>
    if nodeIds.contains e.source && nodeIds.contains e.target then
      if existingEdgeIds.contains e.id then addEdgesGo nodeIds acc existingEdgeIds rest
      else addEdgesGo nodeIds (acc ++ [e]) (existingEdgeIds ++ [e.id]) rest
    else addEdgesGo nodeIds acc existingEdgeIds rest

/-- `mergeGraphDelta(state, delta)`. The wall-clock timestamp
`new Date().toISOString()` is passed in as the parameter `now`. -/
def mergeGraphDelta (state : GraphState) (delta : GraphDelta) (now : String) : GraphState :=
  let nodes0 := state.nodes
  let edges0 := state.edges
  -- 1. Remove nodes first (this also removes orphan edges)
  let step1 : List GraphNode × List GraphEdge :=
    match delta.removeNodeIds with
    | some ids =>
      if 0 < ids.length then (removeNodes ids nodes0, removeEdgesTouching ids edges0)
      else (nodes0, edges0)
    | none => (nodes0, edges0)
  let nodes1 := step1.1
  let edges1 := step1.2
  -- 2. Remove edges
  let edges2 :=
    match delta.removeEdgeIds with
    | some ids => if 0 < ids.length then removeEdges ids edges1 else edges1
    | none => edges1
  -- 3. Add new nodes
  let nodes3 :=
    match delta.addNodes with
    | some adds =>
      if 0 < adds.length then addNodesGo nodes1 (nodes1.map GraphNode.id) adds
      else nodes1
    | none => nodes1
  -- 4. Update existing nodes
  let nodes4 :=
    match delta.updateNodes with
    | some us => if 0 < us.length then updateNodesList us nodes3 else nodes3
    | none => nodes3
  -- 5. Add new edges (only if source and target exist)
  let edges5 :=
    match delta.addEdges with
    | some es =>
      if 0 < es.length then addEdgesGo (nodes4.map GraphNode.id) edges2 (edges2.map GraphEdge.id) es
      else edges2
    | none => edges2
  { nodes := nodes4,
    edges := edges5,
    meta := { projectId := state.meta.projectId, updatedAt := now } }

/-! ### Unguarded pipeline normal form

The `if length > 0` guards in the source are pure optimisations: each step
is the identity on an absent or empty operation list. The pipeline below
drops the guards; `mergeGraphDelta_eq_pipeline` proves it equal. -/

/-- Nodes after step 1 (removals). -/
def nodesAfterRemove (state : GraphState) (delta : GraphDelta) : List GraphNode :=
  removeNodes (delta.removeNodeIds.getD []) state.nodes

/-- Edges after steps 1–2 (node-cascade removals, then edge removals). -/
def edgesAfterRemove (state : GraphState) (delta : GraphDelta) : List GraphEdge :=
  removeEdges (delta.removeEdgeIds.getD [])
    (removeEdgesTouching (delta.removeNodeIds.getD []) state.edges)

/-- Nodes after step 3 (additions). -/
def nodesAfterAdd (state : GraphState) (delta : GraphDelta) : List GraphNode :=
  addNodesGo (nodesAfterRemove state delta)
    ((nodesAfterRemove state delta).map GraphNode.id) (delta.addNodes.getD [])

/-- Nodes after step 4 (updates); this is the final node list. -/
def nodesAfterUpdate (state : GraphState) (delta : GraphDelta) : List GraphNode :=
  updateNodesList (delta.updateNodes.getD []) (nodesAfterAdd state delta)

/-- The guard-free pipeline form of the merge. -/
def mergePipeline (state : GraphState) (delta : GraphDelta) (now : String) : GraphState :=
  { nodes := nodesAfterUpdate state delta,
    edges := addEdgesGo ((nodesAfterUpdate state delta).map GraphNode.id)
      (edgesAfterRemove state delta)
      ((edgesAfterRemove state delta).map GraphEdge.id)
      (delta.addEdges.getD []),
    meta := { projectId := state.meta.projectId, updatedAt := now } }

theorem removeNodes_nil (ns : List GraphNode) : removeNodes [] ns = ns := by
  simp [removeNodes, List.contains]

theorem removeEdgesTouching_nil (es : List GraphEdge) : removeEdgesTouching [] es = es := by
  simp [removeEdgesTouching, List.contains]

theorem removeEdges_nil (es : List GraphEdge) : removeEdges [] es = es := by
  simp [removeEdges, List.contains]

theorem updateOne_nil (n : GraphNode) : updateOne [] n = n := by
  simp [updateOne, findUpdate]

theorem updateNodesList_nil (ns : List GraphNode) : updateNodesList [] ns = ns := by
  unfold updateNodesList
  rw [funext updateOne_nil, List.map_id']

theorem addNodesGo_nil (acc : List GraphNode) (ids : List String) :
    addNodesGo acc ids [] = acc := rfl

theorem addEdgesGo_nil (nodeIds : List String) (acc : List GraphEdge) (eids : List String) :
    addEdgesGo nodeIds acc eids [] = acc := rfl

theorem mergeGraphDelta_eq_pipeline (state : GraphState) (delta : GraphDelta) (now : String) :
    mergeGraphDelta state delta now = mergePipeline state delta now := by
  obtain ⟨an, un, rn, ae, re⟩ := delta
  rcases rn with _ | (_ | ⟨r, rl⟩) <;>
    rcases re with _ | (_ | ⟨q, ql⟩) <;>
      rcases an with _ | (_ | ⟨a, al⟩) <;>
        rcases un with _ | (_ | ⟨u, ul⟩) <;>
          rcases ae with _ | (_ | ⟨e, el⟩) <;>
            simp [mergeGraphDelta, mergePipeline, nodesAfterUpdate, nodesAfterAdd,
              nodesAfterRemove, edgesAfterRemove, removeNodes_nil, removeEdgesTouching_nil,
              removeEdges_nil, updateNodesList_nil, addNodesGo_nil, addEdgesGo_nil]

/-! ### Spec-side descriptions of the add steps

These two definitions follow the SPEC's wording (steps 3 and 5 of §4.3) and
are compared with the source-side folds `addNodesGo` / `addEdgesGo`. -/

/-- Spec step 3 wording: "append it only if its id does not already exist in
the working node set (first-writer-wins)"; the working id set grows with each
appended node. Returns the list of appended entries. -/
def specAddNodes (ids : List String) : List GraphNode → List GraphNode
  | [] => []
  | a :: rest =>
    if a.id ∈ ids then specAddNodes ids rest
    else a :: specAddNodes (ids ++ [a.id]) rest

/-- Spec step 5 wording: "add it only if both source and target ids exist in
the post-steps-1–4 node set AND its id is not already present"; the edge-id
set grows with each appended edge. Returns the list of appended entries. -/
def specAddEdges (nodeIds : List String) (edgeIds : List String) :
    List GraphEdge → List GraphEdge
  | [] => []
  | e :: rest =>
    if e.source ∈ nodeIds ∧ e.target ∈ nodeIds ∧ e.id ∉ edgeIds then
      e :: specAddEdges nodeIds (edgeIds ++ [e.id]) rest
    else specAddEdges nodeIds edgeIds rest

theorem addNodesGo_eq (adds : List GraphNode) :
    ∀ (acc : List GraphNode) (ids : List String),
      addNodesGo acc ids adds = acc ++ specAddNodes ids adds := by
  induction adds with
  | nil => intro acc ids; simp [addNodesGo, specAddNodes]
  | cons a rest ih =>
    intro acc ids
    by_cases h : a.id ∈ ids <;>
      simp [addNodesGo, specAddNodes, h, ih]

theorem addEdgesGo_eq (adds : List GraphEdge) :
    ∀ (nodeIds : List String) (acc : List GraphEdge) (edgeIds : List String),
      addEdgesGo nodeIds acc edgeIds adds = acc ++ specAddEdges nodeIds edgeIds adds := by
  induction adds with
  | nil => intro nodeIds acc edgeIds; simp [addEdgesGo, specAddEdges]
  | cons e rest ih =>
    intro nodeIds acc edgeIds
    by_cases hs : e.source ∈ nodeIds <;> by_cases ht : e.target ∈ nodeIds <;>
      by_cases hi : e.id ∈ edgeIds <;>
        simp [addEdgesGo, specAddEdges, hs, ht, hi, ih]

/-- Membership in the selected `addNodes` entries: an entry is appended iff its
id is fresh w.r.t. the working set and it is the first entry with its id. -/
theorem specAddNodes_mem (a : GraphNode) (adds : List GraphNode) :
    ∀ ids : List String,
      a ∈ specAddNodes ids adds ↔
        a.id ∉ ids ∧ adds.find? (fun x => x.id == a.id) = some a := by
  induction adds with
  | nil => intro ids; simp [specAddNodes]
  | cons b rest ih =>
    intro ids
    by_cases hb : b.id ∈ ids
    · by_cases hba : b.id = a.id
      · have ha : a.id ∈ ids := hba ▸ hb
        simp [specAddNodes, hb, ih, ha]
      · have hpb : (b.id == a.id) = false := by simp [hba]
        simp [specAddNodes, hb, ih, List.find?_cons, hpb]
    · by_cases hba : b.id = a.id
      · have hpb : (b.id == a.id) = true := by simp [hba]
        have ha2 : a.id = b.id := hba.symm
        simp [specAddNodes, hb, ih, List.find?_cons, hpb, ha2]
        exact eq_comm
      · have hpb : (b.id == a.id) = false := by simp [hba]
        have hne : a ≠ b := fun h => hba (congrArg GraphNode.id h).symm
        have ha : a.id ≠ b.id := fun h => hba h.symm
        simp [specAddNodes, hb, ih, List.find?_cons, hpb, hne, ha]

/-- Membership in the selected `addEdges` entries: an entry is appended iff its
endpoints resolve, its id is fresh w.r.t. the working edge-id set, and it is
the first endpoint-valid entry with its id. -/
theorem specAddEdges_mem (e : GraphEdge) (adds : List GraphEdge) :
    ∀ (nodeIds edgeIds : List String),
      e ∈ specAddEdges nodeIds edgeIds adds ↔
        e.source ∈ nodeIds ∧ e.target ∈ nodeIds ∧ e.id ∉ edgeIds ∧
          (adds.filter fun x =>
              decide (x.source ∈ nodeIds) && decide (x.target ∈ nodeIds)).find?
            (fun x => x.id == e.id) = some e := by
  induction adds with
  | nil => intro nodeIds edgeIds; simp [specAddEdges]
  | cons f rest ih =>
    intro nodeIds edgeIds
    by_cases hok : f.source ∈ nodeIds ∧ f.target ∈ nodeIds
    · have hfil : (decide (f.source ∈ nodeIds) && decide (f.target ∈ nodeIds)) = true := by
        simp [hok.1, hok.2]
      by_cases hid : f.id ∈ edgeIds
      · -- f is endpoint-valid but its id is already present: skipped, ids unchanged
        have hcond : ¬(f.source ∈ nodeIds ∧ f.target ∈ nodeIds ∧ f.id ∉ edgeIds) := by
          rintro ⟨_, _, h⟩; exact h hid
        by_cases hfe : f.id = e.id
        · have he : e.id ∈ edgeIds := hfe ▸ hid
          simp [specAddEdges, hcond, ih, he]
        · have hpf : (f.id == e.id) = false := by simp [hfe]
          simp [specAddEdges, hcond, ih, List.filter_cons, hfil, List.find?_cons, hpf]
      · -- f is appended
        have hcond : f.source ∈ nodeIds ∧ f.target ∈ nodeIds ∧ f.id ∉ edgeIds :=
          ⟨hok.1, hok.2, hid⟩
        by_cases hfe : f.id = e.id
        · have hpf : (f.id == e.id) = true := by simp [hfe]
          have ha2 : e.id = f.id := hfe.symm
          simp [specAddEdges, hcond, ih, List.filter_cons, hfil, List.find?_cons,
            hpf, ha2, hid]
          constructor
          · rintro rfl
            exact ⟨hok.1, hok.2, rfl⟩
          · rintro ⟨-, -, rfl⟩
            rfl
        · have hpf : (f.id == e.id) = false := by simp [hfe]
          have hne : e ≠ f := fun h => hfe (congrArg GraphEdge.id h).symm
          have ha : e.id ≠ f.id := fun h => hfe h.symm
          simp [specAddEdges, hcond, ih, List.filter_cons, hfil, List.find?_cons,
            hpf, hne, ha]
    · -- f has a missing endpoint: skipped and filtered out
      have hcond : ¬(f.source ∈ nodeIds ∧ f.target ∈ nodeIds ∧ f.id ∉ edgeIds) := by
        rintro ⟨h1, h2, _⟩; exact hok ⟨h1, h2⟩
      have hfil : (decide (f.source ∈ nodeIds) && decide (f.target ∈ nodeIds)) = false := by
        rcases not_and_or.mp hok with h | h <;> simp [h]
      simp [specAddEdges, hcond, ih, List.filter_cons, hfil]

/-! ### Integrity validator (`validateGraphState`) -/

/-- Result record of `validateGraphState`. -/
structure ValidationResult where
  valid : Bool
  errors : List String
deriving DecidableEq, Repr

/-- The duplicate-id detection loop: check membership in the `seen` set,
then add the id to it (`if (seen.has(id)) errors.push(msg); seen.add(id)`). -/
def dupErrorsGo (msg : String → String) (seen : List String) (errors : List String) :
    List String → List String
  | [] => errors
  | id :: rest =>
    dupErrorsGo msg (seen ++ [id])
      (if seen.contains id then errors ++ [msg id] else errors) rest

/-- The edge-reference loop: one error per missing source, one per missing target. -/
def edgeRefErrorsGo (nodeIds : List String) (errors : List String) :
    List GraphEdge → List String
  | [] => errors
  | e :: rest =>
    let errs1 :=
      if nodeIds.contains e.source then errors
      else errors ++ ["Edge " ++ e.id ++ " references non-existent source node: " ++ e.source]
    let errs2 :=
      if nodeIds.contains e.target then errs1
      else errs1 ++ ["Edge " ++ e.id ++ " references non-existent target node: " ++ e.target]
    edgeRefErrorsGo nodeIds errs2 rest

/-- `validateGraphState(state)`: accumulates all violations, `valid` iff none. -/
def validateGraphState (state : GraphState) : ValidationResult :=
  let nodeIds := state.nodes.map GraphNode.id
  let errors : List String := []
  let errors := dupErrorsGo (fun id => "Duplicate node ID: " ++ id) [] errors
    (state.nodes.map GraphNode.id)
  let errors := dupErrorsGo (fun id => "Duplicate edge ID: " ++ id) [] errors
    (state.edges.map GraphEdge.id)
  let errors := edgeRefErrorsGo nodeIds errors state.edges
  { valid := errors.length == 0, errors := errors }

/-! ### Sample values used in concrete scenarios -/

/-- A sample node with id `a`. -/
def nodeA : GraphNode :=
  { id := "a", kind := NodeKind.service, label := "A", position := ⟨1, 2⟩,
    data := ⟨none, none, none, none⟩ }

/-- A sample node with id `b`. -/
def nodeB : GraphNode :=
  { id := "b", kind := NodeKind.db, label := "B", position := ⟨3, 4⟩,
    data := ⟨none, none, none, none⟩ }

/-- A sample edge from `a` to `b`. -/
def edgeAB : GraphEdge :=
  { id := "e1", source := "a", target := "b", kind := EdgeKind.calls, data := none }

/-- A sample edge whose target `zzz` matches no node. -/
def edgeAZ : GraphEdge :=
  { id := "e2", source := "a", target := "zzz", kind := EdgeKind.calls, data := none }

/-- A sample valid state holding `nodeA`, `nodeB` and one edge between them. -/
def sampleState : GraphState :=
  { nodes := [nodeA, nodeB],
    edges := [{ id := "e0", source := "a", target := "b", kind := EdgeKind.calls, data := none }],
    meta := { projectId := "p1", updatedAt := "t0" } }

/-- C6: for every valid state `S`, merging the empty delta returns a state with
identical `nodes` and `edges` and the same `meta.projectId`; only
`meta.updatedAt` is replaced (by the supplied timestamp). -/
theorem emptyDelta_merge_identity (S : GraphState) (now : String)
    (_hvalid : (validateGraphState S).valid = true) :
    mergeGraphDelta S emptyDelta now =
      { nodes := S.nodes, edges := S.edges,
        meta := { projectId := S.meta.projectId, updatedAt := now } } := by
  simp [mergeGraphDelta, emptyDelta]

/-- C4: an `addNodes` entry whose id already exists in the working node set
(after the removal step, including the ids of earlier entries of the same
`addNodes` list) is silently dropped by the merge (first-writer-wins), and the
already-present nodes are left completely unchanged: the merge's node list is
the working nodes, verbatim, followed by exactly the first-writer-wins
selection (then step 4's updates). Concretely, re-adding id `a` with a new
label leaves the existing node untouched and raises no error. -/
theorem duplicateAdd_noop (S : GraphState) (D : GraphDelta) (now : String) :
    (mergeGraphDelta S D now).nodes =
      updateNodesList (D.updateNodes.getD [])
        (nodesAfterRemove S D ++
          specAddNodes ((nodesAfterRemove S D).map GraphNode.id) (D.addNodes.getD [])) ∧
    (∀ a, a ∈ specAddNodes ((nodesAfterRemove S D).map GraphNode.id) (D.addNodes.getD []) ↔
        a.id ∉ (nodesAfterRemove S D).map GraphNode.id ∧
          (D.addNodes.getD []).find? (fun x => x.id == a.id) = some a) ∧
    (mergeGraphDelta sampleState
        { emptyDelta with addNodes := some [{ nodeA with label := "NEW" }] } "t1").nodes =
      [nodeA, nodeB] := by
  refine ⟨?_, fun a => specAddNodes_mem a _ _, by decide⟩
  rw [mergeGraphDelta_eq_pipeline]
  simp [mergePipeline, nodesAfterUpdate, nodesAfterAdd, addNodesGo_eq]

/-- C2: an `addEdges` entry is appended exactly when both its endpoints exist
in the node set obtained after steps 1–4 and its id is not already an existing
edge id (including ids of edges appended earlier from the same list). An edge
whose endpoints are added by the same delta's `addNodes` is kept; an edge with
a missing endpoint is silently dropped while the rest of the delta still
applies, and no error is raised. -/
theorem addEdges_endpointGating (S : GraphState) (D : GraphDelta) (now : String) :
    (mergeGraphDelta S D now).edges =
      edgesAfterRemove S D ++
        specAddEdges ((nodesAfterUpdate S D).map GraphNode.id)
          ((edgesAfterRemove S D).map GraphEdge.id) (D.addEdges.getD []) ∧
    (∀ e, e ∈ specAddEdges ((nodesAfterUpdate S D).map GraphNode.id)
          ((edgesAfterRemove S D).map GraphEdge.id) (D.addEdges.getD []) ↔
        e.source ∈ (nodesAfterUpdate S D).map GraphNode.id ∧
          e.target ∈ (nodesAfterUpdate S D).map GraphNode.id ∧
          e.id ∉ (edgesAfterRemove S D).map GraphEdge.id ∧
          ((D.addEdges.getD []).filter fun x =>
              decide (x.source ∈ (nodesAfterUpdate S D).map GraphNode.id) &&
                decide (x.target ∈ (nodesAfterUpdate S D).map GraphNode.id)).find?
            (fun x => x.id == e.id) = some e) ∧
    (mergeGraphDelta
        { nodes := [], edges := [], meta := { projectId := "p1", updatedAt := "t0" } }
        { emptyDelta with addNodes := some [nodeA, nodeB], addEdges := some [edgeAB] }
        "t1").edges = [edgeAB] ∧
    mergeGraphDelta
        { nodes := [nodeA], edges := [], meta := { projectId := "p1", updatedAt := "t0" } }
        { emptyDelta with addNodes := some [nodeB], addEdges := some [edgeAZ] }
        "t1" =
      { nodes := [nodeA, nodeB], edges := [],
        meta := { projectId := "p1", updatedAt := "t1" } } := by
  refine ⟨?_, fun e => specAddEdges_mem e _ _ _, by decide, by decide⟩
  rw [mergeGraphDelta_eq_pipeline]
  simp [mergePipeline, addEdgesGo_eq]

/-- Spec-side description of one `updateNodes` application (§4.3 step 4):
`label` and `kind` replace only if the update supplies a value; `data` is
shallow-merged key-by-key (a supplied `methods` or `fields` array fully
replaces the old one); all other node fields (`id`, `position`) are
unchanged. -/
def specUpdateNode (u : NodeUpdate) (node : GraphNode) : GraphNode :=
  { id := node.id,
    kind := match u.kind with | some k => k | none => node.kind,
    label := match u.label with | some l => l | none => node.label,
    position := node.position,
    data :=
      match u.data with
      | none => node.data
      | some d =>
        { summary := match d.summary with | some v => some v | none => node.data.summary,
          methods := match d.methods with | some v => some v | none => node.data.methods,
          fields := match d.fields with | some v => some v | none => node.data.fields,
          filePath := match d.filePath with | some v => some v | none => node.data.filePath } }

theorem specUpdateNode_eq (u : NodeUpdate) (n : GraphNode) :
    specUpdateNode u n = applyUpdate u n := by
  obtain ⟨uid, ul, uk, ud⟩ := u
  rcases ul with _ | l <;> rcases uk with _ | k <;> rcases ud with _ | d <;> rfl

/-- Removing an `updateNodes` entry that matches no node id from the list does
not change the `Map` lookup for any other id. -/
theorem findUpdate_skip (u : NodeUpdate) (us₁ us₂ : List NodeUpdate) (id : String)
    (h : u.id ≠ id) :
    findUpdate (us₁ ++ [u] ++ us₂) id = findUpdate (us₁ ++ us₂) id := by
  have hp : (u.id == id) = false := by simp [h]
  simp [findUpdate, List.reverse_append, List.find?_append, List.find?_cons, hp]

/-- A sample node with preexisting `data` (summary and methods). -/
def nodeM : GraphNode :=
  { id := "m", kind := NodeKind.«class», label := "M", position := ⟨5, 6⟩,
    data := ⟨some "s", some ["m1", "m2"], none, none⟩ }

/-- A sample update for `nodeM`: supplies only a new `methods` array. -/
def updM : NodeUpdate :=
  { id := "m", label := none, kind := none,
    data := some ⟨none, some ["m3"], none, none⟩ }

/-- A sample update whose id matches no node. -/
def updGhost : NodeUpdate :=
  { id := "zzz", label := some "Z", kind := some NodeKind.db, data := none }

/-- `nodeM` after `updM`: the methods array is replaced whole, all else kept. -/
def nodeMupdated : GraphNode :=
  { nodeM with data := ⟨some "s", some ["m3"], none, none⟩ }

/-- C3: the merge's node list is the post-add working list mapped through the
last matching `updateNodes` entry (absent entry = node unchanged), where a
matching entry replaces `label`/`kind` only when supplied, shallow-merges
`data` key-by-key (a supplied `methods` array fully replaces the old one) and
leaves `id` and `position` unchanged; an entry matching no node id can be
deleted from the list without changing the result (and no error is raised);
concretely, updating `nodeM` with only a `methods` array replaces the array,
keeps `summary`, `label`, `kind`, `position`, and a ghost update is a no-op. -/
theorem updateNodes_semantics (S : GraphState) (D : GraphDelta) (now : String) :
    (mergeGraphDelta S D now).nodes =
      (nodesAfterAdd S D).map (fun node =>
        match findUpdate (D.updateNodes.getD []) node.id with
        | none => node
        | some u => specUpdateNode u node) ∧
    (∀ (us₁ us₂ : List NodeUpdate) (u : NodeUpdate),
      (∀ n ∈ nodesAfterAdd S D, n.id ≠ u.id) →
        updateNodesList (us₁ ++ [u] ++ us₂) (nodesAfterAdd S D) =
          updateNodesList (us₁ ++ us₂) (nodesAfterAdd S D)) ∧
    mergeGraphDelta
        { nodes := [nodeM], edges := [], meta := { projectId := "p1", updatedAt := "t0" } }
        { emptyDelta with updateNodes := some [updGhost, updM] } "t1" =
      { nodes := [nodeMupdated], edges := [],
        meta := { projectId := "p1", updatedAt := "t1" } } := by
  refine ⟨?_, ?_, by decide⟩
  · rw [mergeGraphDelta_eq_pipeline]
    simp only [mergePipeline, nodesAfterUpdate, updateNodesList]
    refine List.map_congr_left fun n _ => ?_
    simp only [updateOne, specUpdateNode_eq]
  · intro us₁ us₂ u h
    refine List.map_congr_left fun n hn => ?_
    simp only [updateOne, findUpdate_skip u us₁ us₂ n.id (fun hu => h n hn hu.symm)]

/-- Witness for C6 at the concrete `sampleState`. -/
theorem emptyDelta_merge_identity_witness :
    (validateGraphState sampleState).valid = true ∧
      mergeGraphDelta sampleState emptyDelta ("t1") =
        { nodes := sampleState.nodes, edges := sampleState.edges,
          meta := { projectId := "p1", updatedAt := "t1" } } :=
  ⟨by decide, emptyDelta_merge_identity sampleState ("t1") (by decide)⟩

/-! ### Layout assignment (`autoLayoutNodes`) -/

/-- `autoLayoutNodes(nodes, startX, startY)`: grid placement for nodes whose
position is exactly `(0,0)` (`SPACING_X = 250`, `SPACING_Y = 150`, `COLS = 4`). -/
def autoLayoutNodes (nodes : List GraphNode) (startX startY : Rat) : List GraphNode :=
  nodes.mapIdx fun index node =>
    -- If node already has a non-zero position, keep it
    if node.position.x ≠ 0 ∨ node.position.y ≠ 0 then node
    else
      { node with position :=
          { x := startX + ((index % 4 : ℕ) : Rat) * 250,
            y := startY + ((index / 4 : ℕ) : Rat) * 150 } }

/-- C7: `autoLayoutNodes` maps the node at index `i` to
`(startX + (i mod 4)·250, startY + (i div 4)·150)` exactly when its position
is exactly `(0,0)`, and returns every node with a non-zero position
completely unchanged. -/
theorem autoLayout_grid (nodes : List GraphNode) (startX startY : Rat) :
    autoLayoutNodes nodes startX startY =
      nodes.mapIdx (fun i node =>
        if node.position = ⟨0, 0⟩ then
          { node with position :=
              { x := startX + ((i % 4 : ℕ) : Rat) * 250,
                y := startY + ((i / 4 : ℕ) : Rat) * 150 } }
        else node) := by
  unfold autoLayoutNodes
  congr 1
  funext i n
  obtain ⟨nid, nk, nl, ⟨px, py⟩, nd⟩ := n
  by_cases hx : px = 0 <;> by_cases hy : py = 0 <;>
    simp [hx, hy, Position.mk.injEq]

/-! ### Change summarizer (`generateChangeSummary`) -/

/-- The string form of a node kind (the enum value itself). -/
def kindToString : NodeKind → String
  | NodeKind.service => "service"
  | NodeKind.«class» => "class"
  | NodeKind.«module» => "module"
  | NodeKind.api => "api"
  | NodeKind.queue => "queue"
  | NodeKind.db => "db"

/-- The string form of an edge kind (the enum value itself). -/
def edgeKindToString : EdgeKind → String
  | EdgeKind.calls => "calls"
  | EdgeKind.depends_on => "depends_on"
  | EdgeKind.publishes => "publishes"
  | EdgeKind.consumes => "consumes"
  | EdgeKind.queries => "queries"

/-- The sentence for a non-empty `addNodes`. -/
def addedNodesSentence (ns : List GraphNode) : String :=
  "Added " ++ toString ns.length ++ " node(s): " ++
    String.intercalate (", ")
      (ns.map fun n => "\"" ++ n.label ++ "\" (" ++ kindToString n.kind ++ ")")

/-- The sentence for a non-empty `updateNodes`. -/
def updatedNodesSentence (us : List NodeUpdate) : String :=
  "Updated " ++ toString us.length ++ " node(s): " ++
    String.intercalate (", ") (us.map NodeUpdate.id)

/-- The sentence for a non-empty `removeNodeIds`. -/
def removedNodesSentence (ids : List String) : String :=
  "Removed " ++ toString ids.length ++ " node(s): " ++ String.intercalate (", ") ids

/-- The sentence for a non-empty `addEdges`. -/
def addedEdgesSentence (es : List GraphEdge) : String :=
  "Added " ++ toString es.length ++ " edge(s): " ++
    String.intercalate (", ")
      (es.map fun e => e.source ++ " → " ++ e.target ++ " (" ++ edgeKindToString e.kind ++ ")")

/-- The sentence for a non-empty `removeEdgeIds`. -/
def removedEdgesSentence (ids : List String) : String :=
  "Removed " ++ toString ids.length ++ " edge(s): " ++ String.intercalate (", ") ids

/-- `generateChangeSummary(delta)`: one `parts.push(...)` per non-empty
operation category, in source order, then `parts.join('. ') + '.'` (or the
fixed no-changes sentence). -/
def generateChangeSummary (delta : GraphDelta) : String :=
  let parts : List String := []
  let parts :=
    match delta.addNodes with
    | some ns => if 0 < ns.length then parts ++ [addedNodesSentence ns] else parts
    | none => parts
  let parts :=
    match delta.updateNodes with
    | some us => if 0 < us.length then parts ++ [updatedNodesSentence us] else parts
    | none => parts
  let parts :=
    match delta.removeNodeIds with
    | some ids => if 0 < ids.length then parts ++ [removedNodesSentence ids] else parts
    | none => parts
  let parts :=
    match delta.addEdges with
    | some es => if 0 < es.length then parts ++ [addedEdgesSentence es] else parts
    | none => parts
  let parts :=
    match delta.removeEdgeIds with
    | some ids => if 0 < ids.length then parts ++ [removedEdgesSentence ids] else parts
    | none => parts
  if parts.length = 0 then "No changes were made to the graph."
  else String.intercalate (". ") parts ++ "."

/-- Spec-side part list: one sentence per non-empty operation category, in
the fixed order added nodes, updated nodes, removed nodes, added edges,
removed edges. -/
def specSummaryParts (delta : GraphDelta) : List String :=
  (match delta.addNodes with
    | some ns => if ns ≠ [] then [addedNodesSentence ns] else []
    | none => []) ++
  (match delta.updateNodes with
    | some us => if us ≠ [] then [updatedNodesSentence us] else []
    | none => []) ++
  (match delta.removeNodeIds with
    | some ids => if ids ≠ [] then [removedNodesSentence ids] else []
    | none => []) ++
  (match delta.addEdges with
    | some es => if es ≠ [] then [addedEdgesSentence es] else []
    | none => []) ++
  (match delta.removeEdgeIds with
    | some ids => if ids ≠ [] then [removedEdgesSentence ids] else []
    | none => [])

/-- A sample node used in the summary scenario. -/
def nodeX : GraphNode :=
  { id := "x", kind := NodeKind.service, label := "X", position := ⟨0, 0⟩,
    data := ⟨none, none, none, none⟩ }

/-- C9: the summary is the non-empty categories' sentences, in the fixed
order added nodes / updated nodes / removed nodes / added edges / removed
edges, joined with `". "` (plus a final period); a delta with no operations
yields the fixed no-changes sentence; adding one node labelled `X` of kind
`service` yields a string carrying `Added 1 node(s): "X" (service)`. -/
theorem summary_structure (delta : GraphDelta) :
    generateChangeSummary delta =
      (if specSummaryParts delta = [] then "No changes were made to the graph."
       else String.intercalate (". ") (specSummaryParts delta) ++ ".") ∧
    generateChangeSummary emptyDelta = "No changes were made to the graph." ∧
    generateChangeSummary { emptyDelta with addNodes := some [nodeX] } =
      "Added 1 node(s): \"X\" (service)." := by
  refine ⟨?_, by decide, by decide⟩
  obtain ⟨an, un, rn, ae, re⟩ := delta
  rcases an with _ | (_ | ⟨a, al⟩) <;>
    rcases un with _ | (_ | ⟨u, ul⟩) <;>
      rcases rn with _ | (_ | ⟨r, rl⟩) <;>
        rcases ae with _ | (_ | ⟨e, el⟩) <;>
          rcases re with _ | (_ | ⟨q, ql⟩) <;>
            simp [generateChangeSummary, specSummaryParts]

/-! ### Properties of the validator loops -/

theorem dupErrorsGo_append (msg : String → String) :
    ∀ (l : List String) (seen errs : List String),
      dupErrorsGo msg seen errs l = errs ++ dupErrorsGo msg seen [] l := by
  intro l
  induction l with
  | nil => intro seen errs; simp [dupErrorsGo]
  | cons x rest ih =>
    intro seen errs
    by_cases h : seen.contains x
    · rw [dupErrorsGo, if_pos h, ih, dupErrorsGo, if_pos h, ih (seen ++ [x]) ([] ++ [msg x])]
      simp
    · rw [dupErrorsGo, if_neg h, dupErrorsGo, if_neg h]
      exact ih _ _

theorem dupErrorsGo_eq_nil_iff (msg : String → String) :
    ∀ (l : List String) (seen : List String),
      dupErrorsGo msg seen [] l = [] ↔ l.Nodup ∧ ∀ x ∈ l, x ∉ seen := by
  intro l
  induction l with
  | nil => intro seen; simp [dupErrorsGo]
  | cons x rest ih =>
    intro seen
    by_cases h : x ∈ seen
    · have hc : seen.contains x = true := by simpa using h
      rw [dupErrorsGo, if_pos hc, dupErrorsGo_append]
      simp [h]
    · have hc : ¬(seen.contains x = true) := by simpa using h
      rw [dupErrorsGo, if_neg hc, ih]
      constructor
      · rintro ⟨hnd, hall⟩
        have hxr : x ∉ rest := fun hx => (hall x hx) (by simp)
        refine ⟨List.nodup_cons.mpr ⟨hxr, hnd⟩, ?_⟩
        intro y hy
        rcases List.mem_cons.mp hy with rfl | hy'
        · exact h
        · exact fun hys => (hall y hy') (by simp [hys])
      · rintro ⟨hnd, hall⟩
        have hxr : x ∉ rest := (List.nodup_cons.mp hnd).1
        refine ⟨(List.nodup_cons.mp hnd).2, fun y hy hys => ?_⟩
        rcases List.mem_append.mp hys with hys' | hyx
        · exact (hall y (List.mem_cons_of_mem _ hy)) hys'
        · have hyx2 : y = x := by simpa using hyx
          exact hxr (hyx2 ▸ hy)

theorem dupErrorsGo_length (msg : String → String) :
    ∀ (l : List String) (seen : List String),
      (dupErrorsGo msg seen [] l).length + (l.toFinset \ seen.toFinset).card = l.length := by
  intro l
  induction l with
  | nil => intro seen; simp [dupErrorsGo]
  | cons x rest ih =>
    intro seen
    by_cases h : x ∈ seen
    · have hc : seen.contains x = true := by simpa using h
      rw [dupErrorsGo, if_pos hc, dupErrorsGo_append]
      have hsx : (seen ++ [x]).toFinset = seen.toFinset := by
        ext a
        simp only [List.toFinset_append, Finset.mem_union, List.mem_toFinset,
          List.toFinset_cons, List.toFinset_nil, Finset.mem_insert, Finset.not_mem_empty,
          or_false]
        exact ⟨fun ha => ha.elim id (fun hax => hax ▸ h), Or.inl⟩
      have hins : (insert x rest.toFinset) \ seen.toFinset = rest.toFinset \ seen.toFinset := by
        rw [Finset.insert_sdiff_of_mem _ (by simpa using h)]
      have hrec := ih (seen ++ [x])
      rw [hsx] at hrec
      simp only [List.toFinset_cons, hins, List.length_append, List.length_nil,
        List.nil_append, List.length_singleton, List.length_cons]
      omega
    · have hc : ¬(seen.contains x = true) := by simpa using h
      rw [dupErrorsGo, if_neg hc]
      have hxs : x ∉ seen.toFinset := by simpa using h
      have hsx : (seen ++ [x]).toFinset = insert x seen.toFinset := by
        ext a
        simp only [List.toFinset_append, Finset.mem_union, List.mem_toFinset,
          List.toFinset_cons, List.toFinset_nil, Finset.mem_insert, Finset.not_mem_empty,
          or_false]
        exact or_comm
      have hcard : ((insert x rest.toFinset) \ seen.toFinset).card =
          (rest.toFinset \ insert x seen.toFinset).card + 1 := by
        rw [Finset.insert_sdiff_of_not_mem _ hxs, Finset.sdiff_insert]
        by_cases hxr : x ∈ rest.toFinset \ seen.toFinset
        · rw [Finset.insert_eq_self.mpr hxr, Finset.card_erase_of_mem hxr]
          have hpos : 0 < (rest.toFinset \ seen.toFinset).card := Finset.card_pos.mpr ⟨x, hxr⟩
          omega
        · rw [Finset.card_insert_of_not_mem hxr, Finset.erase_eq_of_not_mem hxr]
      have hrec := ih (seen ++ [x])
      rw [hsx] at hrec
      simp only [List.toFinset_cons, hcard, List.length_cons]
      omega

theorem contains_eq (l : List String) (a : String) : l.contains a = decide (a ∈ l) := by
  by_cases h : a ∈ l <;> simp [h]

theorem edgeRefErrorsGo_cons (nodeIds : List String) (e : GraphEdge)
    (rest : List GraphEdge) (errs : List String) :
    edgeRefErrorsGo nodeIds errs (e :: rest) =
      edgeRefErrorsGo nodeIds
        (errs ++
          ((if nodeIds.contains e.source then []
            else ["Edge " ++ e.id ++ " references non-existent source node: " ++ e.source]) ++
            (if nodeIds.contains e.target then []
              else ["Edge " ++ e.id ++ " references non-existent target node: " ++ e.target])))
        rest := by
  rw [edgeRefErrorsGo]
  by_cases hs : e.source ∈ nodeIds <;> by_cases ht : e.target ∈ nodeIds <;>
    simp [contains_eq, hs, ht]

theorem edgeRefErrorsGo_append (nodeIds : List String) :
    ∀ (es : List GraphEdge) (errs : List String),
      edgeRefErrorsGo nodeIds errs es = errs ++ edgeRefErrorsGo nodeIds [] es := by
  intro es
  induction es with
  | nil => intro errs; simp [edgeRefErrorsGo]
  | cons e rest ih =>
    intro errs
    conv_lhs => rw [edgeRefErrorsGo_cons, ih]
    conv_rhs => rw [edgeRefErrorsGo_cons, ih]
    simp

theorem edgeRefErrorsGo_eq_nil_iff (nodeIds : List String) :
    ∀ es : List GraphEdge,
      edgeRefErrorsGo nodeIds [] es = [] ↔
        ∀ e ∈ es, e.source ∈ nodeIds ∧ e.target ∈ nodeIds := by
  intro es
  induction es with
  | nil => simp [edgeRefErrorsGo]
  | cons e rest ih =>
    rw [edgeRefErrorsGo_cons, edgeRefErrorsGo_append]
    by_cases hs : e.source ∈ nodeIds <;> by_cases ht : e.target ∈ nodeIds <;>
      simp [contains_eq, hs, ht, ih]

theorem edgeRefErrorsGo_length (nodeIds : List String) :
    ∀ es : List GraphEdge,
      (edgeRefErrorsGo nodeIds [] es).length =
        es.countP (fun e => !(nodeIds.contains e.source)) +
          es.countP (fun e => !(nodeIds.contains e.target)) := by
  intro es
  induction es with
  | nil => simp [edgeRefErrorsGo]
  | cons e rest ih =>
    rw [edgeRefErrorsGo_cons, edgeRefErrorsGo_append]
    by_cases hs : e.source ∈ nodeIds <;> by_cases ht : e.target ∈ nodeIds <;>
      simp [contains_eq, hs, ht, ih, List.countP_cons] <;> omega

/-- The validator's error list decomposes into the three loops' contributions. -/
theorem validateGraphState_errors (S : GraphState) :
    (validateGraphState S).errors =
      dupErrorsGo (fun id => "Duplicate node ID: " ++ id) [] [] (S.nodes.map GraphNode.id) ++
        dupErrorsGo (fun id => "Duplicate edge ID: " ++ id) [] [] (S.edges.map GraphEdge.id) ++
        edgeRefErrorsGo (S.nodes.map GraphNode.id) [] S.edges := by
  simp only [validateGraphState]
  rw [dupErrorsGo_append _ _ _ (dupErrorsGo _ [] [] _),
    edgeRefErrorsGo_append _ _ (_ ++ _)]

/-- C8: `validateGraphState` returns `valid = true` iff node ids are pairwise
distinct, edge ids are pairwise distinct, and every edge's endpoints resolve
to node ids; `errors` is empty exactly when `valid` holds; and the error list
carries one entry per violation: its length is the number of duplicate node-id
occurrences plus duplicate edge-id occurrences plus unresolved endpoints. -/
theorem validate_characterisation (S : GraphState) :
    ((validateGraphState S).valid = true ↔
      (S.nodes.map GraphNode.id).Nodup ∧ (S.edges.map GraphEdge.id).Nodup ∧
        ∀ e ∈ S.edges, e.source ∈ S.nodes.map GraphNode.id ∧
          e.target ∈ S.nodes.map GraphNode.id) ∧
    ((validateGraphState S).errors = [] ↔ (validateGraphState S).valid = true) ∧
    (validateGraphState S).errors.length +
        (S.nodes.map GraphNode.id).toFinset.card +
        (S.edges.map GraphEdge.id).toFinset.card =
      S.nodes.length + S.edges.length +
        S.edges.countP (fun e => !((S.nodes.map GraphNode.id).contains e.source)) +
        S.edges.countP (fun e => !((S.nodes.map GraphNode.id).contains e.target)) := by
  have herrs := validateGraphState_errors S
  have hvalid : (validateGraphState S).valid = ((validateGraphState S).errors.length == 0) := by
    unfold validateGraphState
    simp
  constructor
  · rw [hvalid, herrs]
    simp only [beq_iff_eq, List.length_eq_zero, List.append_eq_nil]
    rw [dupErrorsGo_eq_nil_iff, dupErrorsGo_eq_nil_iff, edgeRefErrorsGo_eq_nil_iff]
    simp [and_assoc]
  constructor
  · rw [hvalid]
    simp [List.length_eq_zero]
  · rw [herrs]
    simp only [List.length_append]
    have h1 := dupErrorsGo_length (fun id => "Duplicate node ID: " ++ id)
      (S.nodes.map GraphNode.id) []
    have h2 := dupErrorsGo_length (fun id => "Duplicate edge ID: " ++ id)
      (S.edges.map GraphEdge.id) []
    have h3 := edgeRefErrorsGo_length (S.nodes.map GraphNode.id) S.edges
    simp only [List.toFinset_nil, Finset.sdiff_empty, List.length_map] at h1 h2
    omega

/-! ### No-dangling-edges invariant (C1) -/

/-- Every edge of the state references, via `source` and `target`, an id of a
node present in the state. -/
def edgesReferenceNodes (S : GraphState) : Prop :=
  ∀ e ∈ S.edges,
    e.source ∈ S.nodes.map GraphNode.id ∧ e.target ∈ S.nodes.map GraphNode.id

instance (S : GraphState) : Decidable (edgesReferenceNodes S) := by
  unfold edgesReferenceNodes
  infer_instance

theorem mem_removeNodes (ids : List String) (ns : List GraphNode) (n : GraphNode) :
    n ∈ removeNodes ids ns ↔ n ∈ ns ∧ ids.contains n.id = false := by
  simp [removeNodes, List.mem_filter]

theorem mem_removeEdges (ids : List String) (es : List GraphEdge) (e : GraphEdge) :
    e ∈ removeEdges ids es ↔ e ∈ es ∧ ids.contains e.id = false := by
  simp [removeEdges, List.mem_filter]

theorem mem_removeEdgesTouching (ids : List String) (es : List GraphEdge) (e : GraphEdge) :
    e ∈ removeEdgesTouching ids es ↔
      e ∈ es ∧ ids.contains e.source = false ∧ ids.contains e.target = false := by
  simp [removeEdgesTouching, List.mem_filter]

theorem updateOne_id (us : List NodeUpdate) (n : GraphNode) : (updateOne us n).id = n.id := by
  unfold updateOne
  cases findUpdate us n.id <;> rfl

theorem updateNodesList_ids (us : List NodeUpdate) (ns : List GraphNode) :
    (updateNodesList us ns).map GraphNode.id = ns.map GraphNode.id := by
  unfold updateNodesList
  rw [List.map_map]
  exact List.map_congr_left fun n _ => updateOne_id us n

/-- C1, counterexample to the claim as stated: over arbitrary input states the
merge does not guarantee absence of dangling edges — a state that already
contains a dangling edge keeps it under the empty delta. -/
theorem noDanglingEdges_counterexample :
    ¬ edgesReferenceNodes
        (mergeGraphDelta
          { nodes := [], edges := [edgeAB], meta := { projectId := "p1", updatedAt := "t0" } }
          emptyDelta ("t1")) := by
  decide

/-- C1 (amended): for every state `S` whose edges all reference nodes of `S`
and every delta `D`, every edge of `merge(S,D)` references a node of
`merge(S,D)`. -/
theorem noDanglingEdges_amended (S : GraphState) (D : GraphDelta) (now : String)
    (h : edgesReferenceNodes S) :
    edgesReferenceNodes (mergeGraphDelta S D now) := by
  rw [mergeGraphDelta_eq_pipeline]
  unfold edgesReferenceNodes
  intro e he
  simp only [mergePipeline, nodesAfterUpdate] at he ⊢
  rw [addEdgesGo_eq] at he
  have hids : (updateNodesList (D.updateNodes.getD []) (nodesAfterAdd S D)).map GraphNode.id =
      (nodesAfterRemove S D).map GraphNode.id ++
        (specAddNodes ((nodesAfterRemove S D).map GraphNode.id)
          (D.addNodes.getD [])).map GraphNode.id := by
    rw [updateNodesList_ids, nodesAfterAdd, addNodesGo_eq, List.map_append]
  rcases List.mem_append.mp he with hA | hB
  · rw [edgesAfterRemove, mem_removeEdges] at hA
    obtain ⟨hA1, _⟩ := hA
    rw [mem_removeEdgesTouching] at hA1
    obtain ⟨heS, hsrcR, htgtR⟩ := hA1
    obtain ⟨hsrc, htgt⟩ := h e heS
    constructor
    · rw [hids]
      apply List.mem_append_left
      rw [List.mem_map] at hsrc ⊢
      obtain ⟨n, hn, hnid⟩ := hsrc
      refine ⟨n, ?_, hnid⟩
      rw [nodesAfterRemove, mem_removeNodes]
      exact ⟨hn, by rw [hnid]; exact hsrcR⟩
    · rw [hids]
      apply List.mem_append_left
      rw [List.mem_map] at htgt ⊢
      obtain ⟨n, hn, hnid⟩ := htgt
      refine ⟨n, ?_, hnid⟩
      rw [nodesAfterRemove, mem_removeNodes]
      exact ⟨hn, by rw [hnid]; exact htgtR⟩
  · rw [specAddEdges_mem] at hB
    exact ⟨hB.1, hB.2.1⟩

/-- Witness for the amended C1 at a concrete valid state. -/
theorem noDanglingEdges_amended_witness :
    edgesReferenceNodes sampleState ∧
      edgesReferenceNodes (mergeGraphDelta sampleState emptyDelta ("t5")) :=
  ⟨by decide, noDanglingEdges_amended sampleState emptyDelta ("t5") (by decide)⟩

/-- Witness for C4: the general node-list equation at a concrete input. -/
theorem duplicateAdd_noop_witness :
    (mergeGraphDelta sampleState emptyDelta ("t2")).nodes =
      updateNodesList (emptyDelta.updateNodes.getD [])
        (nodesAfterRemove sampleState emptyDelta ++
          specAddNodes ((nodesAfterRemove sampleState emptyDelta).map GraphNode.id)
            (emptyDelta.addNodes.getD [])) :=
  (duplicateAdd_noop sampleState emptyDelta ("t2")).1

/-- Witness for C2: the general edge-list equation at a concrete input. -/
theorem addEdges_endpointGating_witness :
    (mergeGraphDelta sampleState emptyDelta ("t3")).edges =
      edgesAfterRemove sampleState emptyDelta ++
        specAddEdges ((nodesAfterUpdate sampleState emptyDelta).map GraphNode.id)
          ((edgesAfterRemove sampleState emptyDelta).map GraphEdge.id)
          (emptyDelta.addEdges.getD []) :=
  (addEdges_endpointGating sampleState emptyDelta ("t3")).1

/-- Witness for C3: deleting the non-matching `updGhost` entry changes
nothing, at a concrete input. -/
theorem updateNodes_semantics_witness :
    updateNodesList ([] ++ [updGhost] ++ []) (nodesAfterAdd sampleState emptyDelta) =
      updateNodesList ([] ++ []) (nodesAfterAdd sampleState emptyDelta) :=
  (updateNodes_semantics sampleState emptyDelta ("t4")).2.1 [] [] updGhost (by decide)

/-- Witness for C8: errors-empty-iff-valid at a concrete input. -/
theorem validate_characterisation_witness :
    (validateGraphState sampleState).errors = [] ↔
      (validateGraphState sampleState).valid = true :=
  (validate_characterisation sampleState).2.1

/-! ### JSON values and `JSON.parse`

`JSON.parse` is embedded as a recursive-descent parser over the character
list, with a fuel argument for termination (the fuel passed at top level,
`4·length + 4`, dominates the recursion depth of any input). Numbers are
parsed exactly into `Rat` (the source holds them in floating point; no claim
here depends on rounding). A `\u` escape is mapped through `Char.ofNat`. -/

inductive Json where
  | null
  | bool (b : Bool)
  | num (q : Rat)
  | str (s : String)
  | arr (elems : List Json)
  | obj (members : List (String × Json))
deriving Repr

def quoteChar : Char := Char.ofNat 34

def backslashChar : Char := Char.ofNat 92

def openBraceChar : Char := Char.ofNat 123

def closeBraceChar : Char := Char.ofNat 125

def isJsonWs (c : Char) : Bool :=
  c = ' ' || c = Char.ofNat 9 || c = Char.ofNat 10 || c = Char.ofNat 13

def skipWs : List Char → List Char
  | [] => []
  | c :: rest => if isJsonWs c then skipWs rest else c :: rest

def hexVal (c : Char) : Option Nat :=
  if '0' ≤ c ∧ c ≤ '9' then some (c.toNat - 48)
  else if 'a' ≤ c ∧ c ≤ 'f' then some (c.toNat - 87)
  else if 'A' ≤ c ∧ c ≤ 'F' then some (c.toNat - 55)
  else none

/-- Parse the body of a JSON string (after the opening quote), returning the
content and the characters after the closing quote. Raw control characters
are rejected, escapes are decoded. -/
def parseStringBody : Nat → List Char → Option (List Char × List Char)
  | 0, _ => none
  | _ + 1, [] => none
  | fuel + 1, c :: rest =>
    if c = quoteChar then some ([], rest)
    else if c = backslashChar then
      match rest with
      | [] => none
      | e :: rest2 =>
        if e = quoteChar then
          (parseStringBody fuel rest2).map fun p => (quoteChar :: p.1, p.2)
        else if e = backslashChar then
          (parseStringBody fuel rest2).map fun p => (backslashChar :: p.1, p.2)
        else if e = '/' then
          (parseStringBody fuel rest2).map fun p => ('/' :: p.1, p.2)
        else if e = 'b' then
          (parseStringBody fuel rest2).map fun p => (Char.ofNat 8 :: p.1, p.2)
        else if e = 'f' then
          (parseStringBody fuel rest2).map fun p => (Char.ofNat 12 :: p.1, p.2)
        else if e = 'n' then
          (parseStringBody fuel rest2).map fun p => (Char.ofNat 10 :: p.1, p.2)
        else if e = 'r' then
          (parseStringBody fuel rest2).map fun p => (Char.ofNat 13 :: p.1, p.2)
        else if e = 't' then
          (parseStringBody fuel rest2).map fun p => (Char.ofNat 9 :: p.1, p.2)
        else if e = 'u' then
          match rest2 with
          | h1 :: h2 :: h3 :: h4 :: rest3 =>
            match hexVal h1, hexVal h2, hexVal h3, hexVal h4 with
            | some a, some b, some c2, some d =>
              (parseStringBody fuel rest3).map fun p =>
                (Char.ofNat (((a * 16 + b) * 16 + c2) * 16 + d) :: p.1, p.2)
            | _, _, _, _ => none
          | _ => none
        else none
    else if c.toNat < 32 then none
    else (parseStringBody fuel rest).map fun p => (c :: p.1, p.2)

def digitsToNat (ds : List Char) : Nat :=
  ds.foldl (fun acc d => acc * 10 + (d.toNat - 48)) 0

def parseFrac (cs : List Char) : Option (Rat × List Char) :=
  match cs with
  | p :: rest =>
    if p = '.' then
      let fds := rest.takeWhile Char.isDigit
      if fds.isEmpty then none
      else some ((digitsToNat fds : Rat) / ((10 : Rat) ^ fds.length), rest.dropWhile Char.isDigit)
    else some (0, cs)
  | [] => some (0, cs)

def parseExp (cs : List Char) : Option (Int × List Char) :=
  match cs with
  | e :: rest =>
    if e = 'e' ∨ e = 'E' then
      let sgnRest : Int × List Char :=
        match rest with
        | s :: r2 => if s = '+' then (1, r2) else if s = '-' then (-1, r2) else (1, rest)
        | [] => (1, rest)
      let ds := sgnRest.2.takeWhile Char.isDigit
      if ds.isEmpty then none
      else some (sgnRest.1 * (digitsToNat ds : Int), sgnRest.2.dropWhile Char.isDigit)
    else some (0, cs)
  | [] => some (0, cs)

/-- JSON number grammar: `-? (0|[1-9][0-9]*) (\.[0-9]+)? ([eE][+-]?[0-9]+)?`. -/
def parseNumber (cs : List Char) : Option (Rat × List Char) :=
  let negRest : Bool × List Char :=
    match cs with
    | c :: rest => if c = '-' then (true, rest) else (false, cs)
    | [] => (false, cs)
  let cs1 := negRest.2
  let intDs := cs1.takeWhile Char.isDigit
  if intDs.isEmpty then none
  else if 1 < intDs.length ∧ intDs.headD '0' = '0' then none
  else
    match parseFrac (cs1.dropWhile Char.isDigit) with
    | none => none
    | some (f, cs3) =>
      match parseExp cs3 with
      | none => none
      | some (ex, cs4) =>
        let base : Rat := (digitsToNat intDs : Nat) + f
        let v : Rat :=
          if 0 ≤ ex then base * (10 : Rat) ^ ex.toNat else base / (10 : Rat) ^ (-ex).toNat
        some (if negRest.1 then -v else v, cs4)

mutual

def parseValue : Nat → List Char → Option (Json × List Char)
  | 0, _ => none
  | fuel + 1, cs0 =>
    let cs := skipWs cs0
    match cs with
    | [] => none
    | c :: rest =>
      if c = quoteChar then
        match parseStringBody (rest.length + 1) rest with
        | some (content, r) => some (Json.str (String.mk content), r)
        | none => none
      else if c = openBraceChar then
        match parseMembers fuel rest with
        | some (ms, r) => some (Json.obj ms, r)
        | none => none
      else if c = '[' then
        match parseElems fuel rest with
        | some (vs, r) => some (Json.arr vs, r)
        | none => none
      else if c = 't' then
        match cs with
        | 't' :: 'r' :: 'u' :: 'e' :: r => some (Json.bool true, r)
        | _ => none
      else if c = 'f' then
        match cs with
        | 'f' :: 'a' :: 'l' :: 's' :: 'e' :: r => some (Json.bool false, r)
        | _ => none
      else if c = 'n' then
        match cs with
        | 'n' :: 'u' :: 'l' :: 'l' :: r => some (Json.null, r)
        | _ => none
      else
        match parseNumber cs with
        | some (q, r) => some (Json.num q, r)
        | none => none

/-- Element list after `[`; allows the empty array. -/
def parseElems : Nat → List Char → Option (List Json × List Char)
  | 0, _ => none
  | fuel + 1, cs =>
    match skipWs cs with
    | [] => none
    | c :: rest => if c = ']' then some ([], rest) else parseElemsNE fuel (c :: rest)

/-- Non-empty element list. -/
def parseElemsNE : Nat → List Char → Option (List Json × List Char)
  | 0, _ => none
  | fuel + 1, cs =>
    match parseValue fuel cs with
    | none => none
    | some (v, r) =>
      match skipWs r with
      | c :: r2 =>
        if c = ',' then
          match parseElemsNE fuel r2 with
          | some (vs, r3) => some (v :: vs, r3)
          | none => none
        else if c = ']' then some ([v], r2)
        else none
      | [] => none

/-- Member list after the opening brace; allows the empty object. -/
def parseMembers : Nat → List Char → Option (List (String × Json) × List Char)
  | 0, _ => none
  | fuel + 1, cs =>
    match skipWs cs with
    | [] => none
    | c :: rest => if c = closeBraceChar then some ([], rest) else parseMembersNE fuel (c :: rest)

/-- Non-empty member list. -/
def parseMembersNE : Nat → List Char → Option (List (String × Json) × List Char)
  | 0, _ => none
  | fuel + 1, cs =>
    match skipWs cs with
    | [] => none
    | c :: rest =>
      if c = quoteChar then
        match parseStringBody (rest.length + 1) rest with
        | some (key, r) =>
          match skipWs r with
          | c2 :: r2 =>
            if c2 = ':' then
              match parseValue fuel r2 with
              | some (v, r3) =>
                match skipWs r3 with
                | c3 :: r5 =>
                  if c3 = ',' then
                    match parseMembersNE fuel r5 with
                    | some (ms, r6) => some ((String.mk key, v) :: ms, r6)
                    | none => none
                  else if c3 = closeBraceChar then some ([(String.mk key, v)], r5)
                  else none
                | [] => none
              | none => none
            else none
          | [] => none
        | none => none
      else none

end

/-- `JSON.parse`: parse one value and insist the rest is whitespace. -/
def parseJson (s : String) : Option Json :=
  match parseValue (4 * s.data.length + 4) s.data with
  | some (v, rest) => if (skipWs rest).isEmpty then some v else none
  | none => none

/-! ### Schema validation (`GraphDeltaSchema.safeParse`) -/

/-- Object-key lookup; `JSON.parse` lets a later duplicate key overwrite an
earlier one, so the last member wins. -/
def objGet (kvs : List (String × Json)) (key : String) : Option Json :=
  (kvs.reverse.find? fun kv => kv.1 == key).map Prod.snd

def asString : Json → Option String
  | Json.str s => some s
  | _ => none

def asNumber : Json → Option Rat
  | Json.num q => some q
  | _ => none

def asArray : Json → Option (List Json)
  | Json.arr xs => some xs
  | _ => none

/-- A `.optional()` field: an absent key is fine, a present key must parse. -/
def optField {α : Type} (kvs : List (String × Json)) (key : String)
    (f : Json → Option α) : Option (Option α) :=
  match objGet kvs key with
  | none => some none
  | some v =>
    match f v with
    | some a => some (some a)
    | none => none

def parseNodeKind (s : String) : Option NodeKind :=
  if s = "service" then some NodeKind.service
  else if s = "class" then some NodeKind.«class»
  else if s = "module" then some NodeKind.«module»
  else if s = "api" then some NodeKind.api
  else if s = "queue" then some NodeKind.queue
  else if s = "db" then some NodeKind.db
  else none

def parseEdgeKind (s : String) : Option EdgeKind :=
  if s = "calls" then some EdgeKind.calls
  else if s = "depends_on" then some EdgeKind.depends_on
  else if s = "publishes" then some EdgeKind.publishes
  else if s = "consumes" then some EdgeKind.consumes
  else if s = "queries" then some EdgeKind.queries
  else none

def vStringArray (j : Json) : Option (List String) :=
  (asArray j).bind (List.mapM asString)

def vNodeData (j : Json) : Option NodeData :=
  match j with
  | Json.obj kvs =>
    (optField kvs ("summary") asString).bind fun summary =>
    (optField kvs ("methods") vStringArray).bind fun methods =>
    (optField kvs ("fields") vStringArray).bind fun fields =>
    (optField kvs ("filePath") asString).map fun filePath =>
    ⟨summary, methods, fields, filePath⟩
  | _ => none

def vPosition (j : Json) : Option Position :=
  match j with
  | Json.obj kvs =>
    ((objGet kvs ("x")).bind asNumber).bind fun x =>
    ((objGet kvs ("y")).bind asNumber).map fun y =>
    ⟨x, y⟩
  | _ => none

def vNode (j : Json) : Option GraphNode :=
  match j with
  | Json.obj kvs =>
    ((objGet kvs ("id")).bind asString).bind fun id =>
    (((objGet kvs ("kind")).bind asString).bind parseNodeKind).bind fun kind =>
    ((objGet kvs ("label")).bind asString).bind fun label =>
    ((objGet kvs ("position")).bind vPosition).bind fun position =>
    ((objGet kvs ("data")).bind vNodeData).map fun data =>
    ⟨id, kind, label, position, data⟩
  | _ => none

def vEdgeData (j : Json) : Option EdgeData :=
  match j with
  | Json.obj kvs =>
    (optField kvs ("description") asString).map fun description => ⟨description⟩
  | _ => none

def vEdge (j : Json) : Option GraphEdge :=
  match j with
  | Json.obj kvs =>
    ((objGet kvs ("id")).bind asString).bind fun id =>
    ((objGet kvs ("source")).bind asString).bind fun source =>
    ((objGet kvs ("target")).bind asString).bind fun target =>
    (((objGet kvs ("kind")).bind asString).bind parseEdgeKind).bind fun kind =>
    (optField kvs ("data") vEdgeData).map fun data =>
    ⟨id, source, target, kind, data⟩
  | _ => none

def vNodeUpdate (j : Json) : Option NodeUpdate :=
  match j with
  | Json.obj kvs =>
    ((objGet kvs ("id")).bind asString).bind fun id =>
    (optField kvs ("label") asString).bind fun label =>
    (optField kvs ("kind") (fun v => (asString v).bind parseNodeKind)).bind fun kind =>
    (optField kvs ("data") vNodeData).map fun data =>
    ⟨id, label, kind, data⟩
  | _ => none

/-- `GraphDeltaSchema.safeParse`: a top-level object whose five operation
fields are optional arrays of the respective shapes; unknown keys are
ignored, any present field of the wrong shape fails the whole parse. -/
def validateGraphDelta (j : Json) : Option GraphDelta :=
  match j with
  | Json.obj kvs =>
    (optField kvs ("addNodes") (fun v => (asArray v).bind (List.mapM vNode))).bind
      fun addNodes =>
    (optField kvs ("updateNodes") (fun v => (asArray v).bind (List.mapM vNodeUpdate))).bind
      fun updateNodes =>
    (optField kvs ("removeNodeIds") vStringArray).bind fun removeNodeIds =>
    (optField kvs ("addEdges") (fun v => (asArray v).bind (List.mapM vEdge))).bind
      fun addEdges =>
    (optField kvs ("removeEdgeIds") vStringArray).map fun removeEdgeIds =>
    ⟨addNodes, updateNodes, removeNodeIds, addEdges, removeEdgeIds⟩
  | _ => none

/-! ### The delta parser (`parseAndValidateDelta`) -/

/-- `trim()` on a character list: drop whitespace from both ends. -/
def trimChars (cs : List Char) : List Char :=
  (((cs.dropWhile Char.isWhitespace).reverse).dropWhile Char.isWhitespace).reverse

/-- The cleanup stage: trim, strip a single leading ```` ```json ```` or
```` ``` ```` fence, strip a single trailing fence, trim again. -/
def stripCodeFence (s : String) : String :=
  let cs := trimChars s.data
  let cs :=
    if (String.data ("```json")).isPrefixOf cs then cs.drop 7
    else if (String.data ("```")).isPrefixOf cs then cs.drop 3
    else cs
  let cs :=
    if ((String.data ("```")).reverse).isPrefixOf cs.reverse then cs.take (cs.length - 3)
    else cs
  String.mk (trimChars cs)

/-- The fallback `cleaned.match(/\x7b[\s\S]*\x7d/)`: the greedy regex spans
from the first opening brace to the last closing brace, when the latter comes
after the former. -/
def extractBraced (s : String) : Option String :=
  let cs := s.data
  match cs.findIdx? (fun c => c = openBraceChar) with
  | none => none
  | some i =>
    match cs.reverse.findIdx? (fun c => c = closeBraceChar) with
    | none => none
    | some jr =>
      let j := cs.length - 1 - jr
      if i < j then some (String.mk ((cs.drop i).take (j - i + 1)))
      else none

/-- `parseAndValidateDelta(response)`: cleanup, direct parse, brace-extraction
fallback, schema validation; all failure modes collapse to `none`. -/
def parseAndValidateDelta (response : String) : Option GraphDelta :=
  let cleaned := stripCodeFence response
  match parseJson cleaned with
  | some parsed => validateGraphDelta parsed
  | none =>
    match extractBraced cleaned with
    | some sub =>
      match parseJson sub with
      | some parsed => validateGraphDelta parsed
      | none => none
    | none => none

/-- C5: the parser returns a schema-validated delta exactly when the cleaned
text parses directly, or fails to parse and its first-to-last-brace substring
parses, and the parsed value matches the `GraphDelta` shape; prose around the
JSON is tolerated through the fallback, a fenced block parses directly, and a
response with no brace-delimited JSON fails. -/
theorem parser_pipeline (s : String) (d : GraphDelta) :
    (parseAndValidateDelta s = some d ↔
      (∃ j, parseJson (stripCodeFence s) = some j ∧ validateGraphDelta j = some d) ∨
        (parseJson (stripCodeFence s) = none ∧
          ∃ sub j, extractBraced (stripCodeFence s) = some sub ∧
            parseJson sub = some j ∧ validateGraphDelta j = some d)) ∧
    parseAndValidateDelta ("Sure! Here's the delta: \x7b\"addNodes\":[]\x7d Hope that helps!") =
      some { emptyDelta with addNodes := some [] } ∧
    parseAndValidateDelta ("```json\n\x7b\"addNodes\":[]\x7d\n```") =
      some { emptyDelta with addNodes := some [] } ∧
    parseAndValidateDelta ("no json here") = none := by
  refine ⟨?_, by decide, by decide, by decide⟩
  unfold parseAndValidateDelta
  cases hdirect : parseJson (stripCodeFence s) with
  | some j => simp [hdirect]
  | none =>
    cases hext : extractBraced (stripCodeFence s) with
    | none => simp [hdirect, hext]
    | some sub =>
      cases hsub : parseJson sub with
      | none => simp [hdirect, hext, hsub]
      | some j => simp [hdirect, hext, hsub]

/-! ### Idempotence of the merge (C10) -/

theorem applyUpdate_idem (u : NodeUpdate) (n : GraphNode) :
    applyUpdate u (applyUpdate u n) = applyUpdate u n := by
  obtain ⟨uid, ul, uk, ud⟩ := u
  rcases ul with _ | l <;> rcases uk with _ | k <;> rcases ud with _ | d
  all_goals try rfl
  all_goals
    obtain ⟨ds, dm, df, dp⟩ := d
    rcases ds with _ | v1 <;> rcases dm with _ | v2 <;> rcases df with _ | v3 <;>
      rcases dp with _ | v4 <;> rfl

theorem updateOne_idem (us : List NodeUpdate) (n : GraphNode) :
    updateOne us (updateOne us n) = updateOne us n := by
  cases h : findUpdate us n.id with
  | none =>
    have hn : updateOne us n = n := by unfold updateOne; rw [h]
    rw [hn]
    exact hn
  | some u =>
    have hn : updateOne us n = applyUpdate u n := by unfold updateOne; rw [h]
    rw [hn]
    have hid : (applyUpdate u n).id = n.id := rfl
    unfold updateOne
    rw [hid, h]
    exact applyUpdate_idem u n

/-- On a list that has already been through step 4, a second pass of step 4
changes nothing (elementwise). -/
theorem updateOne_mem_updated (us : List NodeUpdate) (ns : List GraphNode) :
    ∀ y ∈ updateNodesList us ns, updateOne us y = y := by
  intro y hy
  rw [updateNodesList] at hy
  obtain ⟨z, _, rfl⟩ := List.mem_map.mp hy
  exact updateOne_idem us z

/-- Applying the whole merge node step a second time (same removal set, same
additions, same updates) does not change the membership of the node list,
provided the starting working list `n1` carries no removed id (which is true
of the post-removal list). -/
theorem nodes_roundtrip (R : List String) (A : List GraphNode) (U : List NodeUpdate)
    (n1 : List GraphNode) (hfree : ∀ n ∈ n1, R.contains n.id = false) (x : GraphNode) :
    x ∈ updateNodesList U
        (removeNodes R (updateNodesList U (n1 ++ specAddNodes (n1.map GraphNode.id) A)) ++
          specAddNodes
            ((removeNodes R
              (updateNodesList U
                (n1 ++ specAddNodes (n1.map GraphNode.id) A))).map GraphNode.id)
            A) ↔
      x ∈ updateNodesList U (n1 ++ specAddNodes (n1.map GraphNode.id) A) := by
  set sel1 := specAddNodes (n1.map GraphNode.id) A with hsel1
  set M1 := updateNodesList U (n1 ++ sel1) with hM1
  set n1' := removeNodes R M1 with hn1'
  set sel2 := specAddNodes (n1'.map GraphNode.id) A with hsel2
  have hupd : ∀ y ∈ M1, updateOne U y = y := by
    intro y hy
    rw [hM1] at hy
    exact updateOne_mem_updated U (n1 ++ sel1) y hy
  have hmemn1' : ∀ y, y ∈ n1' ↔ y ∈ M1 ∧ R.contains y.id = false := by
    intro y
    rw [hn1']
    exact mem_removeNodes R M1 y
  have hsub : ∀ y ∈ n1', y ∈ M1 := fun y hy => ((hmemn1' y).mp hy).1
  have hidsM1 : ∀ i, i ∈ M1.map GraphNode.id ↔
      i ∈ n1.map GraphNode.id ∨ i ∈ sel1.map GraphNode.id := by
    intro i
    rw [hM1, updateNodesList_ids, List.map_append, List.mem_append]
  have hidsn1' : ∀ i, i ∈ n1'.map GraphNode.id ↔
      i ∈ M1.map GraphNode.id ∧ R.contains i = false := by
    intro i
    constructor
    · intro hi
      obtain ⟨y, hy, rfl⟩ := List.mem_map.mp hi
      obtain ⟨hyM, hyR⟩ := (hmemn1' y).mp hy
      exact ⟨List.mem_map.mpr ⟨y, hyM, rfl⟩, hyR⟩
    · rintro ⟨hi, hiR⟩
      obtain ⟨y, hy, rfl⟩ := List.mem_map.mp hi
      exact List.mem_map.mpr ⟨y, (hmemn1' y).mpr ⟨hy, hiR⟩, rfl⟩
  have hfreeIds : ∀ i ∈ n1.map GraphNode.id, R.contains i = false := by
    intro i hi
    obtain ⟨y, hy, rfl⟩ := List.mem_map.mp hi
    exact hfree y hy
  rw [updateNodesList, List.map_append, List.mem_append]
  constructor
  · rintro (hx | hx)
    · obtain ⟨y, hy, rfl⟩ := List.mem_map.mp hx
      have hyM := hsub y hy
      rw [hupd y hyM]
      exact hyM
    · obtain ⟨y, hy, rfl⟩ := List.mem_map.mp hx
      rw [hsel2] at hy
      obtain ⟨hynotin, hfind⟩ := (specAddNodes_mem y A _).mp hy
      have hyn1 : y.id ∉ n1.map GraphNode.id := by
        intro hjn
        exact hynotin ((hidsn1' y.id).mpr ⟨(hidsM1 y.id).mpr (Or.inl hjn), hfreeIds _ hjn⟩)
      have hysel1 : y ∈ sel1 := by
        rw [hsel1]
        exact (specAddNodes_mem y A _).mpr ⟨hyn1, hfind⟩
      rw [hM1, updateNodesList]
      exact List.mem_map.mpr ⟨y, List.mem_append.mpr (Or.inr hysel1), rfl⟩
  · intro hx
    by_cases hxR : R.contains x.id = false
    · left
      exact List.mem_map.mpr ⟨x, (hmemn1' x).mpr ⟨hx, hxR⟩, hupd x hx⟩
    · have hxR' : R.contains x.id = true := by
        cases h : R.contains x.id
        · exact absurd h hxR
        · rfl
      rw [hM1, updateNodesList, List.map_append, List.mem_append] at hx
      rcases hx with hx | hx
      · obtain ⟨y, hy, rfl⟩ := List.mem_map.mp hx
        have hyfree : R.contains (updateOne U y).id = false := by
          rw [updateOne_id]
          exact hfree y hy
        exact absurd (hyfree.symm.trans hxR') Bool.false_ne_true
      · obtain ⟨y, hy, rfl⟩ := List.mem_map.mp hx
        rw [hsel1] at hy
        obtain ⟨hyn1, hfind⟩ := (specAddNodes_mem y A _).mp hy
        have hyid : R.contains y.id = true := by
          rw [← updateOne_id U y]
          exact hxR'
        have hynotin' : y.id ∉ n1'.map GraphNode.id := by
          intro hin
          have hfalse := ((hidsn1' y.id).mp hin).2
          exact absurd (hfalse.symm.trans hyid) Bool.false_ne_true
        right
        refine List.mem_map.mpr ⟨y, ?_, rfl⟩
        rw [hsel2]
        exact (specAddNodes_mem y A _).mpr ⟨hynotin', hfind⟩

/-- The edge selection only consults the node-id list through membership. -/
theorem specAddEdges_congr (n1Ids n2Ids : List String)
    (h : ∀ i, i ∈ n1Ids ↔ i ∈ n2Ids) (es : List GraphEdge) :
    ∀ eids, specAddEdges n1Ids eids es = specAddEdges n2Ids eids es := by
  induction es with
  | nil => intro eids; rfl
  | cons f rest ih =>
    intro eids
    by_cases hc : f.source ∈ n1Ids ∧ f.target ∈ n1Ids ∧ f.id ∉ eids
    · have hc2 : f.source ∈ n2Ids ∧ f.target ∈ n2Ids ∧ f.id ∉ eids :=
        ⟨(h _).mp hc.1, (h _).mp hc.2.1, hc.2.2⟩
      rw [specAddEdges, if_pos hc, specAddEdges, if_pos hc2, ih]
    · have hc2 : ¬(f.source ∈ n2Ids ∧ f.target ∈ n2Ids ∧ f.id ∉ eids) := by
        intro hh
        exact hc ⟨(h _).mpr hh.1, (h _).mpr hh.2.1, hh.2.2⟩
      rw [specAddEdges, if_neg hc, specAddEdges, if_neg hc2, ih]

/-- Two selected edges with the same id are the same edge. -/
theorem specAddEdges_inj (nodeIds eids : List String) (es : List GraphEdge)
    (x y : GraphEdge) (hx : x ∈ specAddEdges nodeIds eids es)
    (hy : y ∈ specAddEdges nodeIds eids es) (hxy : x.id = y.id) : x = y := by
  obtain ⟨_, _, _, hfx⟩ := (specAddEdges_mem x es nodeIds eids).mp hx
  obtain ⟨_, _, _, hfy⟩ := (specAddEdges_mem y es nodeIds eids).mp hy
  rw [← hxy] at hfy
  exact Option.some.inj (hfx.symm.trans hfy)

/-- Applying the whole merge edge step a second time does not change the
membership of the edge list, provided the post-removal edges `e2` carry no
removed endpoint and no removed edge id, and the node-id universe has the
same membership on both passes. -/
theorem edges_roundtrip (R RE : List String) (AE : List GraphEdge) (NIds NIds' : List String)
    (hN : ∀ i, i ∈ NIds' ↔ i ∈ NIds) (e2 : List GraphEdge)
    (hsrc : ∀ e ∈ e2, R.contains e.source = false)
    (htgt : ∀ e ∈ e2, R.contains e.target = false)
    (hid : ∀ e ∈ e2, RE.contains e.id = false)
    (x : GraphEdge) :
    x ∈ removeEdges RE (removeEdgesTouching R
          (e2 ++ specAddEdges NIds (e2.map GraphEdge.id) AE)) ++
        specAddEdges NIds'
          ((removeEdges RE (removeEdgesTouching R
            (e2 ++ specAddEdges NIds (e2.map GraphEdge.id) AE))).map GraphEdge.id) AE ↔
      x ∈ e2 ++ specAddEdges NIds (e2.map GraphEdge.id) AE := by
  set sel1 := specAddEdges NIds (e2.map GraphEdge.id) AE with hsel1
  set M1e := e2 ++ sel1 with hM1e
  set e2' := removeEdges RE (removeEdgesTouching R M1e) with he2'
  rw [specAddEdges_congr NIds' NIds hN AE (e2'.map GraphEdge.id)]
  set sel2 := specAddEdges NIds (e2'.map GraphEdge.id) AE with hsel2
  have hmem2' : ∀ y, y ∈ e2' ↔ y ∈ M1e ∧ R.contains y.source = false ∧
      R.contains y.target = false ∧ RE.contains y.id = false := by
    intro y
    rw [he2', mem_removeEdges, mem_removeEdgesTouching]
    tauto
  have hsub : ∀ y ∈ e2, y ∈ e2' := by
    intro y hy
    refine (hmem2' y).mpr ⟨?_, hsrc y hy, htgt y hy, hid y hy⟩
    rw [hM1e]
    exact List.mem_append_left _ hy
  rw [List.mem_append]
  constructor
  · rintro (hx | hx)
    · exact ((hmem2' x).mp hx).1
    · rw [hsel2] at hx
      obtain ⟨hsx, htx, hnix, hfx⟩ := (specAddEdges_mem x AE NIds _).mp hx
      have hxid : x.id ∉ e2.map GraphEdge.id := by
        intro hin
        apply hnix
        obtain ⟨y, hy, hyid⟩ := List.mem_map.mp hin
        exact List.mem_map.mpr ⟨y, hsub y hy, hyid⟩
      rw [hM1e]
      apply List.mem_append_right
      rw [hsel1]
      exact (specAddEdges_mem x AE NIds _).mpr ⟨hsx, htx, hxid, hfx⟩
  · intro hx
    rw [hM1e, List.mem_append] at hx
    rcases hx with hx | hx
    · exact Or.inl (hsub x hx)
    · have hxsel1 : x ∈ sel1 := hx
      rw [hsel1] at hx
      obtain ⟨hsx, htx, hnix, hfx⟩ := (specAddEdges_mem x AE NIds _).mp hx
      by_cases hkeep : R.contains x.source = false ∧ R.contains x.target = false ∧
          RE.contains x.id = false
      · left
        refine (hmem2' x).mpr ⟨?_, hkeep.1, hkeep.2.1, hkeep.2.2⟩
        rw [hM1e]
        exact List.mem_append_right _ hxsel1
      · right
        rw [hsel2]
        refine (specAddEdges_mem x AE NIds _).mpr ⟨hsx, htx, ?_, hfx⟩
        intro hin
        obtain ⟨y, hy, hyid⟩ := List.mem_map.mp hin
        obtain ⟨hyM, hys, hyt, hyi⟩ := (hmem2' y).mp hy
        rw [hM1e, List.mem_append] at hyM
        rcases hyM with hyM | hyM
        · exact hnix (List.mem_map.mpr ⟨y, hyM, hyid⟩)
        · have hyx : y = x := by
            rw [hsel1] at hyM
            exact specAddEdges_inj NIds (e2.map GraphEdge.id) AE y x hyM hx hyid
          exact hkeep ⟨hyx ▸ hys, hyx ▸ hyt, hyx ▸ hyi⟩

/-- A delta exercising every operation kind, for the idempotence witness. -/
def deltaMix : GraphDelta :=
  { addNodes := some [nodeX], updateNodes := some [updGhost],
    removeNodeIds := some ["b"], addEdges := some [edgeAB],
    removeEdgeIds := some ["e0"] }

/-- C10: the merge is idempotent on graph content — applying the same delta a
second time leaves the node set and the edge set unchanged (membership-wise;
order and the timestamp are ignored). -/
theorem merge_idempotent (S : GraphState) (D : GraphDelta) (t1 t2 : String) :
    (∀ x, x ∈ (mergeGraphDelta (mergeGraphDelta S D t1) D t2).nodes ↔
        x ∈ (mergeGraphDelta S D t1).nodes) ∧
    (∀ e, e ∈ (mergeGraphDelta (mergeGraphDelta S D t1) D t2).edges ↔
        e ∈ (mergeGraphDelta S D t1).edges) := by
  have hp1 : mergeGraphDelta S D t1 = mergePipeline S D t1 := mergeGraphDelta_eq_pipeline S D t1
  have hM1n : (mergePipeline S D t1).nodes =
      updateNodesList (D.updateNodes.getD [])
        (nodesAfterRemove S D ++
          specAddNodes ((nodesAfterRemove S D).map GraphNode.id) (D.addNodes.getD [])) := by
    show nodesAfterUpdate S D = _
    rw [nodesAfterUpdate, nodesAfterAdd, addNodesGo_eq]
  have hM2n : (mergePipeline (mergePipeline S D t1) D t2).nodes =
      updateNodesList (D.updateNodes.getD [])
        (removeNodes (D.removeNodeIds.getD []) ((mergePipeline S D t1).nodes) ++
          specAddNodes
            ((removeNodes (D.removeNodeIds.getD [])
              ((mergePipeline S D t1).nodes)).map GraphNode.id)
            (D.addNodes.getD [])) := by
    show nodesAfterUpdate (mergePipeline S D t1) D = _
    rw [nodesAfterUpdate, nodesAfterAdd, addNodesGo_eq, nodesAfterRemove]
  have hnodes : ∀ x, x ∈ (mergeGraphDelta (mergeGraphDelta S D t1) D t2).nodes ↔
      x ∈ (mergeGraphDelta S D t1).nodes := by
    intro x
    rw [hp1, mergeGraphDelta_eq_pipeline, hM2n, hM1n]
    exact nodes_roundtrip _ _ _ _ (fun n hn => ((mem_removeNodes _ _ n).mp hn).2) x
  have hN : ∀ i, i ∈ (nodesAfterUpdate (mergePipeline S D t1) D).map GraphNode.id ↔
      i ∈ (nodesAfterUpdate S D).map GraphNode.id := by
    intro i
    constructor
    · intro hi
      obtain ⟨y, hy, rfl⟩ := List.mem_map.mp hi
      have h1 : y ∈ (mergeGraphDelta (mergeGraphDelta S D t1) D t2).nodes := by
        rw [hp1, mergeGraphDelta_eq_pipeline]
        exact hy
      have h2 := (hnodes y).mp h1
      rw [hp1] at h2
      exact List.mem_map.mpr ⟨y, h2, rfl⟩
    · intro hi
      obtain ⟨y, hy, rfl⟩ := List.mem_map.mp hi
      have h1 : y ∈ (mergeGraphDelta S D t1).nodes := by
        rw [hp1]
        exact hy
      have h2 := (hnodes y).mpr h1
      rw [hp1, mergeGraphDelta_eq_pipeline] at h2
      exact List.mem_map.mpr ⟨y, h2, rfl⟩
  have hM1e : (mergePipeline S D t1).edges =
      edgesAfterRemove S D ++
        specAddEdges ((nodesAfterUpdate S D).map GraphNode.id)
          ((edgesAfterRemove S D).map GraphEdge.id) (D.addEdges.getD []) := by
    show addEdgesGo _ _ _ _ = _
    rw [addEdgesGo_eq]
  have hM2e : (mergePipeline (mergePipeline S D t1) D t2).edges =
      removeEdges (D.removeEdgeIds.getD [])
          (removeEdgesTouching (D.removeNodeIds.getD []) (mergePipeline S D t1).edges) ++
        specAddEdges ((nodesAfterUpdate (mergePipeline S D t1) D).map GraphNode.id)
          ((removeEdges (D.removeEdgeIds.getD [])
            (removeEdgesTouching (D.removeNodeIds.getD [])
              (mergePipeline S D t1).edges)).map GraphEdge.id)
          (D.addEdges.getD []) := by
    show addEdgesGo _ _ _ _ = _
    rw [addEdgesGo_eq, edgesAfterRemove]
  have hsrc : ∀ e ∈ edgesAfterRemove S D,
      (D.removeNodeIds.getD []).contains e.source = false := by
    intro e he
    exact ((mem_removeEdgesTouching _ _ e).mp ((mem_removeEdges _ _ e).mp he).1).2.1
  have htgt : ∀ e ∈ edgesAfterRemove S D,
      (D.removeNodeIds.getD []).contains e.target = false := by
    intro e he
    exact ((mem_removeEdgesTouching _ _ e).mp ((mem_removeEdges _ _ e).mp he).1).2.2
  have hide : ∀ e ∈ edgesAfterRemove S D,
      (D.removeEdgeIds.getD []).contains e.id = false := by
    intro e he
    exact ((mem_removeEdges _ _ e).mp he).2
  refine ⟨hnodes, ?_⟩
  intro e
  rw [hp1, mergeGraphDelta_eq_pipeline, hM2e, hM1e]
  exact edges_roundtrip _ _ _ _ _ hN _ hsrc htgt hide e

/-- Witness for C10 on a delta exercising every operation kind. -/
theorem merge_idempotent_witness :
    nodeX ∈ (mergeGraphDelta (mergeGraphDelta sampleState deltaMix ("a")) deltaMix ("b")).nodes ↔
      nodeX ∈ (mergeGraphDelta sampleState deltaMix ("a")).nodes :=
  (merge_idempotent sampleState deltaMix ("a") ("b")).1 nodeX

end ArchGraph
